import Mathlib

/-!
Verification development for the content-addressable blob storage layer of
an image-registry backend (repository-scoped linked blob store, upload
sessions, and the upload purge sweep).

The definitions below are a shallow embedding of the Go source:
`linkedBlobStore` / `linkedBlobStatter` methods are translated into pure
Lean functions over an environment of oracle functions (the external
collaborators: storage driver, global blob store, path resolver), with an
explicit event trace recording the storage-effecting calls each operation
makes.  The upload purge component is not present in the provided sources
(only its tests are), so it is modelled from the specification; those
definitions say so in their doc comments.
-/

set_option autoImplicit false

deriving instance DecidableEq for Except

namespace Distribution

/-- A content digest: algorithm tag plus hex value.  Two digests are equal
iff both components match exactly. -/
structure Digest where
  algorithm : String
  hex : String
deriving DecidableEq, Repr

/-- OCI descriptor (`v1.Descriptor`): media type, size and digest. -/
structure Descriptor where
  mediaType : String
  size : Int
  digest : Digest
deriving DecidableEq, Repr

/-- A canonical reference (`reference.Canonical`): repository name plus
digest, as used by the cross-repository mount option. -/
structure Ref where
  name : String
  dgst : Digest
deriving DecidableEq, Repr

/-- Storage-driver errors: the driver distinguishes "path not found" from
other I/O failures. -/
inductive DriverErr where
  | pathNotFound (path : String)
  | fail (code : Nat)
deriving DecidableEq, Repr

/-- Path-resolution errors produced by `pathFor` on malformed input. -/
inductive PathErr where
  | invalid (code : Nat)
deriving DecidableEq, Repr

/-- Registry-level error values as seen by callers of the linked blob
store.  `blobUnknown` and `blobUploadUnknown` are the distinguished
not-found conditions; `blobMounted` is the mount short-circuit signal;
`driver`, `pathSpec` and `parse` embed errors propagated unchanged from
the storage driver, the path resolver and timestamp parsing. -/
inductive RegErr where
  | blobUnknown
  | blobUploadUnknown
  | unsupported
  | blobMounted (src : Ref) (desc : Descriptor)
  | driver (e : DriverErr)
  | pathSpec (e : PathErr)
  | parse (s : String)
deriving DecidableEq, Repr

end Distribution

namespace Purge

open Distribution

/-!
### Upload purge sweep (modelled from the spec)

`PurgeUploads` / `getOutstandingUploads` are not among the provided source
files; only their tests are.  The model below follows the specification's
algorithm for the purge sweep: walk the whole namespace, recognise upload
sessions structurally by the fixed `_uploads` path segment, skip sessions
whose startedAt file is missing, record an error (and continue) for
sessions whose startedAt fails to parse, and delete sessions strictly
older than the cutoff when `actuallyDelete` is set.
-/

/-- A storage path, as a list of path segments. -/
abbrev Path := List String

/-- Modelled from the spec: the content of a stored file.  A well-formed
startedAt file records a timestamp (times are abstracted to naturals in
place of RFC3339 strings); any other content is unparseable. -/
inductive Content where
  | time (t : Nat)
  | bytes (s : String)
deriving DecidableEq, Repr

/-- Modelled from the spec: parsing the content of a startedAt file
succeeds exactly on recorded timestamps. -/
def parseStartedAt : Content → Option Nat
  | .time t => some t
  | .bytes _ => none

/-- The flat path namespace of the backing store: an association list from
paths to file contents. -/
abbrev FS := List (Path × Content)

/-- The fixed path segment that discriminates upload artifacts. -/
def uploadsSegment : String := "_uploads"

/-- The file name of the per-session startedAt artifact. -/
def startedAtName : String := "startedat"

/-- Modelled from the spec: the upload session root a path belongs to, if
any — the prefix of the path ending at the session-id segment that
directly follows the first `_uploads` segment.  Paths without the
`_uploads` segment belong to no session. -/
def sessionRootOf : Path → Option Path
  | [] => none
  | s :: rest =>
    if s = uploadsSegment then
      match rest with
      | [] => none
      | id :: _ => some [uploadsSegment, id]
    else
      match sessionRootOf rest with
      | some r => some (s :: r)
      | none => none

/-- Modelled from the spec: walking the entire storage namespace and
gathering the distinct upload-session roots, recognised structurally by
the `_uploads` segment. -/
def gatherSessionRoots (fs : FS) : List Path :=
  (fs.filterMap (fun f => sessionRootOf f.1)).dedup

/-- Look up the content stored at a path. -/
def lookupFS (fs : FS) (p : Path) : Option Content :=
  (fs.find? (fun f => f.1 = p)).map (·.2)

/-- Modelled from the spec: the per-session purge decision loop.  For each
discovered session root: a missing startedAt file skips the session (no
deletion, no error); unparseable content records the root in the error
list and continues; a parsed start time strictly earlier than the cutoff
makes the session a deletion candidate.  Returns the deletion candidates
and the error list. -/
def purgeLoop (fs : FS) (olderThan : Nat) : List Path → List Path × List Path
  | [] => ([], [])
  | r :: rest =>
    match lookupFS fs (r ++ [startedAtName]) with
    | none => purgeLoop fs olderThan rest
    | some c =>
      match parseStartedAt c with
      | none =>
        let res := purgeLoop fs olderThan rest
        (res.1, r :: res.2)
      | some t =>
        if t < olderThan then
          let res := purgeLoop fs olderThan rest
          (r :: res.1, res.2)
        else purgeLoop fs olderThan rest

/-- Modelled from the spec: `PurgeUploads(olderThan, actuallyDelete)`.
Walks the namespace, gathers session roots, applies the per-session purge
decision, and — when `actuallyDelete` is set — removes every file under a
deleted session root from the store.  Returns the deleted session paths,
the per-session error list, and the resulting store. -/
def PurgeUploads (fs : FS) (olderThan : Nat) (actuallyDelete : Bool) :
    List Path × List Path × FS :=
  let roots := gatherSessionRoots fs
  let res := purgeLoop fs olderThan roots
  let fs' :=
    if actuallyDelete then
      fs.filter (fun f => res.1.all (fun r => ! r.isPrefixOf f.1))
    else fs
  (res.1, res.2, fs')

/-- A session root whose startedAt file exists, parses, and records a
start time strictly earlier than the cutoff. -/
def staleAt (fs : FS) (olderThan : Nat) (r : Path) : Prop :=
  ∃ c t, lookupFS fs (r ++ [startedAtName]) = some c ∧
    parseStartedAt c = some t ∧ t < olderThan

/-- A session root whose startedAt file exists but does not parse. -/
def malformedAt (fs : FS) (r : Path) : Prop :=
  ∃ c, lookupFS fs (r ++ [startedAtName]) = some c ∧ parseStartedAt c = none

/-- A concrete store: a stale session `u1` (started at 3), a fresh
session `u2` (started at 9), a session `u3` with no startedAt file, and
an artifact outside the `_uploads` namespace whose directory name merely
resembles it. -/
def fsA : FS :=
  [(["repo", "_uploads", "u1", "data"], .bytes ("")),
   (["repo", "_uploads", "u1", "startedat"], .time 3),
   (["repo", "_uploads", "u2", "startedat"], .time 9),
   (["repo", "_uploads", "u3", "data"], .bytes ("")),
   (["repo", "_important", "file"], .bytes ("keep"))]

end Purge

namespace Distribution

/-!
### Linked blob store (from `linkedblobstore.go`)

Each method is embedded as a pure function over an environment of oracle
functions standing for the external collaborators (`blobAccessController`,
the global `blobStore`, the storage `driver`, the path resolver, the
registry), returning the result together with a trace of the
storage-effecting calls it made, in order.
-/

/-- Events recording the storage-effecting calls an operation makes. -/
inductive Ev where
  | accStat (d : Digest)
  | readGlobal (d : Digest)
  | openGlobal (d : Digest)
  | serveGlobal (d : Digest)
  | setHeader (mt : String)
  | readLinkFile (p : String)
  | newUuid (u : String)
  | putStartedAt (p : String)
  | openWriter (p : String) (append : Bool)
  | writeLink (d : Digest) (p : String) (target : Digest)
  | clear (d : Digest)
  | ingest (d : Digest)
  | readContent (p : String)
  | crossRepoStat (r : Ref) (d : Digest)
deriving DecidableEq, Repr

/-- The resumable upload handle returned by `Create`/`Resume`
(`blobWriter`): upload id, data path, persisted start time, append mode
and the driver writer handle. -/
structure BlobWriter where
  id : String
  path : String
  startedAt : Nat
  append : Bool
  handle : Nat
deriving DecidableEq, Repr

/-- The linked blob store and its collaborators.  Function-valued fields
are the oracles for the external interfaces the Go methods call into. -/
structure linkedBlobStore where
  repoName : String
  deleteEnabled : Bool
  resumableDigestEnabled : Bool
  /-- Go `blobAccessController.Stat` -/
  accStatF : Digest → Except RegErr Descriptor
  /-- Go `blobAccessController.Clear` -/
  accClearF : Digest → Except RegErr Unit
  /-- global `blobStore.Get` -/
  globalGetF : Digest → Except RegErr (List Nat)
  /-- global `blobStore.Open` (abstract stream handle) -/
  globalOpenF : Digest → Except RegErr Nat
  /-- Go `blobServer.ServeBlob` -/
  serveF : Digest → Except RegErr Unit
  /-- Go `linkPath`: repository name and digest to link-file path -/
  linkPathF : String → Digest → Except PathErr String
  /-- Go `blobStore.link(path, target)` -/
  linkF : String → Digest → Except DriverErr Unit
  /-- Go `blobStore.readlink` -/
  readlinkF : String → Except DriverErr Digest
  /-- Go `blobStore.statter.Stat` (global statter) -/
  globalStatF : Digest → Except RegErr Descriptor
  /-- Go `driver.GetContent` -/
  getContentF : String → Except DriverErr String
  /-- Go `driver.PutContent` -/
  putContentF : String → String → Except DriverErr Unit
  /-- Go `driver.Writer(path, append)` (abstract writer handle) -/
  writerF : String → Bool → Except DriverErr Nat
  /-- Go `registry.Repository(sourceRepo)` resolution -/
  repoResolveF : Ref → Except RegErr Unit
  /-- Go `repo.Blobs(ctx).Stat` on the source repository -/
  crossStatF : Ref → Digest → Except RegErr Descriptor
  /-- Go `pathFor` on an upload data path spec of a repository name and id -/
  uploadDataPathF : String → String → Except PathErr String
  /-- Go `pathFor` on an upload startedAt path spec of a repository name and id -/
  uploadStartedAtPathF : String → String → Except PathErr String
  /-- Go `pathFor(linkDirectoryPathSpec)` -/
  linkDirRootF : Except PathErr String
  /-- Go `time.Parse(time.RFC3339, s)` (times abstracted to naturals) -/
  parseTimeF : String → Option Nat
  /-- Go `uuid.NewString()` for this call -/
  freshUuid : String
  /-- Go `time.Now()` for this call -/
  now : Nat

/-- Render a timestamp for the startedAt file (stands for RFC3339
formatting). -/
def fmtTime (t : Nat) : String := toString t

/-- Go `linkedBlobStore.Stat`: delegates to the blob access controller. -/
def linkedBlobStore.Stat (lbs : linkedBlobStore) (dgst : Digest) :
    Except RegErr Descriptor × List Ev :=
  (lbs.accStatF dgst, [.accStat dgst])

/-- Go `linkedBlobStore.Get`: Stat as access check, then read the global
store keyed by the canonical digest from the returned descriptor. -/
def linkedBlobStore.Get (lbs : linkedBlobStore) (dgst : Digest) :
    Except RegErr (List Nat) × List Ev :=
  match lbs.accStatF dgst with
  | .error e => (.error e, [.accStat dgst])
  | .ok canonical =>
    (lbs.globalGetF canonical.digest, [.accStat dgst, .readGlobal canonical.digest])

/-- Go `linkedBlobStore.Open`: Stat as access check, then open the global
store keyed by the canonical digest. -/
def linkedBlobStore.Open (lbs : linkedBlobStore) (dgst : Digest) :
    Except RegErr Nat × List Ev :=
  match lbs.accStatF dgst with
  | .error e => (.error e, [.accStat dgst])
  | .ok canonical =>
    (lbs.globalOpenF canonical.digest, [.accStat dgst, .openGlobal canonical.digest])

/-- Go `linkedBlobStore.ServeBlob`: Stat as access check, set the repository
local content type when present, then serve from the blob server keyed by
the canonical digest. -/
def linkedBlobStore.ServeBlob (lbs : linkedBlobStore) (dgst : Digest) :
    Except RegErr Unit × List Ev :=
  match lbs.accStatF dgst with
  | .error e => (.error e, [.accStat dgst])
  | .ok canonical =>
    (lbs.serveF canonical.digest,
      .accStat dgst ::
        (if canonical.mediaType ≠ "" then [Ev.setHeader canonical.mediaType] else []) ++
        [Ev.serveGlobal canonical.digest])

/-- The worker loop of `linkBlob`: iterate the digest list, skipping
digests already seen, resolving each remaining digest's link path and
writing a link whose content is the canonical digest. -/
def linkedBlobStore.linkBlobLoop (lbs : linkedBlobStore) (canonical : Descriptor) :
    List Digest → List Digest → Except RegErr Unit × List Ev
  | _, [] => (.ok (), [])
  | seen, d :: rest =>
    if d ∈ seen then lbs.linkBlobLoop canonical seen rest
    else
      match lbs.linkPathF lbs.repoName d with
      | .error e => (.error (.pathSpec e), [])
      | .ok p =>
        match lbs.linkF p canonical.digest with
        | .error e => (.error (.driver e), [])
        | .ok () =>
          let res := lbs.linkBlobLoop canonical (d :: seen) rest
          (res.1, .writeLink d p canonical.digest :: res.2)

/-- Go `linkedBlobStore.linkBlob`: link the canonical digest and every alias
into the repository, never making duplicate links; every link's content
is the canonical digest. -/
def linkedBlobStore.linkBlob (lbs : linkedBlobStore) (canonical : Descriptor)
    (aliases : List Digest) : Except RegErr Unit × List Ev :=
  lbs.linkBlobLoop canonical [] (canonical.digest :: aliases)

/-- Go `linkedBlobStore.mount`: resolve the source descriptor (from the
provided stat, or by resolving the source repository and statting there),
then record a descriptor with the conservative generic media type and
link it into this repository. -/
def linkedBlobStore.mount (lbs : linkedBlobStore) (sourceRepo : Ref)
    (dgst : Digest) (sourceStat : Option Descriptor) :
    Except RegErr Descriptor × List Ev :=
  match sourceStat with
  | none =>
    match lbs.repoResolveF sourceRepo with
    | .error e => (.error e, [])
    | .ok () =>
      match lbs.crossStatF sourceRepo dgst with
      | .error e => (.error e, [.crossRepoStat sourceRepo dgst])
      | .ok st =>
        let desc : Descriptor :=
          { mediaType := "application/octet-stream", size := st.size, digest := dgst }
        let res := lbs.linkBlob desc []
        (match res.1 with
          | .ok () => .ok desc
          | .error e => .error e,
          .crossRepoStat sourceRepo dgst :: res.2)
  | some st =>
    let desc : Descriptor :=
      { mediaType := "application/octet-stream", size := st.size, digest := dgst }
    let res := lbs.linkBlob desc []
    (match res.1 with
      | .ok () => .ok desc
      | .error e => .error e,
      res.2)

/-- Go `linkedBlobStore.newBlobUpload`: allocate the upload controller by
opening a driver writer on the data path. -/
def linkedBlobStore.newBlobUpload (lbs : linkedBlobStore) (id p : String)
    (startedAt : Nat) (append : Bool) : Except RegErr BlobWriter × List Ev :=
  match lbs.writerF p append with
  | .error e => (.error (.driver e), [.openWriter p append])
  | .ok h =>
    (.ok { id := id, path := p, startedAt := startedAt, append := append, handle := h },
      [.openWriter p append])

/-- Go `distribution.CreateOptions`: the mount request assembled by applying
blob-create options. -/
structure CreateOptions where
  shouldMount : Bool
  mountFrom : Option Ref
  mountStat : Option Descriptor
deriving DecidableEq, Repr

/-- The zero value of `CreateOptions` before any option is applied. -/
def CreateOptions.empty : CreateOptions :=
  { shouldMount := false, mountFrom := none, mountStat := none }

/-- A blob-create option: a function mutating the options value
(`optionFunc.Apply`). -/
abbrev BlobCreateOption := CreateOptions → Except RegErr CreateOptions

/-- Go `WithMountFrom`: designates that the blob should be mounted from the
given canonical reference. -/
def WithMountFrom (ref : Ref) : BlobCreateOption :=
  fun opts => .ok { opts with shouldMount := true, mountFrom := some ref }

/-- Apply each option in order to the options value, stopping at the
first failure. -/
def applyOptions : CreateOptions → List BlobCreateOption → Except RegErr CreateOptions
  | opts, [] => .ok opts
  | opts, o :: rest =>
    match o opts with
    | .error e => .error e
    | .ok opts' => applyOptions opts' rest

/-- The non-mount tail of `Create`: allocate a fresh upload id and start
time, resolve the data and startedAt paths, persist the startedAt file and
open the upload. -/
def linkedBlobStore.createUpload (lbs : linkedBlobStore) :
    Except RegErr BlobWriter × List Ev :=
  let u := lbs.freshUuid
  let startedAt := lbs.now
  match lbs.uploadDataPathF lbs.repoName u with
  | .error e => (.error (.pathSpec e), [.newUuid u])
  | .ok dataPath =>
    match lbs.uploadStartedAtPathF lbs.repoName u with
    | .error e => (.error (.pathSpec e), [.newUuid u])
    | .ok saPath =>
      match lbs.putContentF saPath (fmtTime startedAt) with
      | .error e => (.error (.driver e), [.newUuid u])
      | .ok () =>
        let res := lbs.newBlobUpload u dataPath startedAt false
        (res.1, .newUuid u :: .putStartedAt saPath :: res.2)

/-- Go `linkedBlobStore.Create`: apply the options; when a mount is requested
attempt it first, short-circuiting with the `blobMounted` signal on
success and falling through to a fresh upload session otherwise. -/
def linkedBlobStore.Create (lbs : linkedBlobStore)
    (options : List BlobCreateOption) : Except RegErr BlobWriter × List Ev :=
  match applyOptions CreateOptions.empty options with
  | .error e => (.error e, [])
  | .ok opts =>
    match opts.shouldMount, opts.mountFrom with
    | true, some src =>
      let m := lbs.mount src src.dgst opts.mountStat
      match m.1 with
      | .ok desc => (.error (.blobMounted src desc), m.2)
      | .error _ =>
        let c := lbs.createUpload
        (c.1, m.2 ++ c.2)
    | _, _ => lbs.createUpload

/-- Go `linkedBlobStore.Resume`: read the session's startedAt file —
path-not-found is the distinguished `blobUploadUnknown` condition, any
other read failure propagates — parse the stored timestamp, then reopen
the data path in append mode. -/
def linkedBlobStore.Resume (lbs : linkedBlobStore) (id : String) :
    Except RegErr BlobWriter × List Ev :=
  match lbs.uploadStartedAtPathF lbs.repoName id with
  | .error e => (.error (.pathSpec e), [])
  | .ok saPath =>
    match lbs.getContentF saPath with
    | .error (.pathNotFound _) => (.error .blobUploadUnknown, [.readContent saPath])
    | .error (.fail c) => (.error (.driver (.fail c)), [.readContent saPath])
    | .ok s =>
      match lbs.parseTimeF s with
      | none => (.error (.parse s), [.readContent saPath])
      | some startedAt =>
        match lbs.uploadDataPathF lbs.repoName id with
        | .error e => (.error (.pathSpec e), [.readContent saPath])
        | .ok dataPath =>
          let res := lbs.newBlobUpload id dataPath startedAt true
          (res.1, .readContent saPath :: res.2)

/-- Go `linkedBlobStore.Delete`: unsupported unless deletion is enabled;
otherwise re-stat the digest and clear the repository link only when the
stat succeeds. -/
def linkedBlobStore.Delete (lbs : linkedBlobStore) (dgst : Digest) :
    Except RegErr Unit × List Ev :=
  if lbs.deleteEnabled then
    match lbs.accStatF dgst with
    | .error e => (.error e, [.accStat dgst])
    | .ok _ =>
      match lbs.accClearF dgst with
      | .error e => (.error e, [.accStat dgst, .clear dgst])
      | .ok () => (.ok (), [.accStat dgst, .clear dgst])
  else (.error .unsupported, [])

/-- A file met during a driver walk: its path and whether it is a
directory. -/
structure FileInfo where
  path : String
  isDir : Bool
deriving DecidableEq, Repr

/-- The characters after the last slash: accumulator-passing worker for
`baseName`. -/
def baseNameChars : List Char → List Char → List Char
  | acc, [] => acc.reverse
  | acc, c :: rest =>
    if c = '/' then baseNameChars [] rest else baseNameChars (c :: acc) rest

/-- The base name of a slash-separated path (`path.Split`). -/
def baseName (p : String) : String :=
  ⟨baseNameChars [] p.data⟩

/-- An ingestor callback, as an oracle: the digests it accepts. -/
abbrev Ingestor := Digest → Except RegErr Unit

/-- The walk loop of `Enumerate` over the files below the link directory
root, in walk order: directories and files not named `link` are skipped;
each link is read and resolved through `Stat`; a resolved digest is passed
to the ingestor; a `blobUnknown` resolution is silently skipped; any other
error stops the walk (the driver walk aborts on the first visitor error).
Returns the result together with the digests the ingestor was invoked on,
in order. -/
def linkedBlobStore.enumerateLoop (lbs : linkedBlobStore) (ingestor : Ingestor) :
    List FileInfo → Except RegErr Unit × List Digest
  | [] => (.ok (), [])
  | f :: rest =>
    if f.isDir then lbs.enumerateLoop ingestor rest
    else if baseName f.path ≠ "link" then lbs.enumerateLoop ingestor rest
    else
      match lbs.readlinkF f.path with
      | .error e => (.error (.driver e), [])
      | .ok d =>
        match lbs.accStatF d with
        | .error e =>
          if e = RegErr.blobUnknown then lbs.enumerateLoop ingestor rest
          else (.error e, [])
        | .ok _ =>
          match ingestor d with
          | .error e => (.error e, [d])
          | .ok () =>
            let res := lbs.enumerateLoop ingestor rest
            (res.1, d :: res.2)

/-- Go `linkedBlobStore.Enumerate`: resolve the link directory root, then
walk the files below it (given here as the walk order the driver
produces) with the enumeration visitor. -/
def linkedBlobStore.Enumerate (lbs : linkedBlobStore) (ingestor : Ingestor)
    (files : List FileInfo) : Except RegErr Unit × List Digest :=
  match lbs.linkDirRootF with
  | .error e => (.error (.pathSpec e), [])
  | .ok _ => lbs.enumerateLoop ingestor files

/-- The repository-scoped statter (`linkedBlobStatter`) and its
collaborators. -/
structure linkedBlobStatter where
  repoName : String
  /-- Go `linkPath` -/
  linkPathF : String → Digest → Except PathErr String
  /-- Go `blobStore.readlink` -/
  readlinkF : String → Except DriverErr Digest
  /-- Go `blobStore.statter.Stat` (global statter) -/
  globalStatF : Digest → Except RegErr Descriptor

/-- Go `linkedBlobStatter.Stat`: read the repository-scoped link; absence is
the distinguished `blobUnknown` condition; a target digest differing from
the requested digest is a logged alias, resolved by statting the target
in the global statter. -/
def linkedBlobStatter.Stat (lbs : linkedBlobStatter) (dgst : Digest) :
    Except RegErr Descriptor :=
  match lbs.linkPathF lbs.repoName dgst with
  | .error e => .error (.pathSpec e)
  | .ok blobLinkPath =>
    match lbs.readlinkF blobLinkPath with
    | .error (.pathNotFound _) => .error .blobUnknown
    | .error (.fail c) => .error (.driver (.fail c))
    | .ok target => lbs.globalStatF target

/-!
### Concrete instances used to witness the theorems below
-/

/-- A sample digest linked in the sample repository. -/
def dA : Digest := ⟨"sha256", "aa"⟩

/-- The canonical digest the sample link resolves to (an alias target). -/
def dB : Digest := ⟨"sha256", "bb"⟩

/-- A sample digest with no link in the sample repository. -/
def dC : Digest := ⟨"sha512", "cc"⟩

/-- The canonical descriptor of the sample blob. -/
def descB : Descriptor := ⟨"text/plain", 7, dB⟩

/-- A sample source reference for mounting. -/
def refS : Ref := ⟨"source-repo", dA⟩

/-- A concrete linked blob store over simple oracles: digest `dA` is
linked (resolving to canonical `dB`), everything else is unknown; the
startedAt file exists only for upload id `u0` and holds timestamp 5. -/
def lbsA : linkedBlobStore where
  repoName := "repo"
  deleteEnabled := true
  resumableDigestEnabled := false
  accStatF := fun d => if d = dA then .ok descB else .error .blobUnknown
  accClearF := fun _ => .ok ()
  globalGetF := fun d => if d = dB then .ok [1, 2] else .error .blobUnknown
  globalOpenF := fun d => if d = dB then .ok 5 else .error .blobUnknown
  serveF := fun d => if d = dB then .ok () else .error .blobUnknown
  linkPathF := fun _ d => .ok d.hex
  linkF := fun _ _ => .ok ()
  readlinkF := fun p =>
    if p = "aa" then .ok dB
    else if p = "la/link" then .ok dA
    else if p = "lc/link" then .ok dC
    else .error (.pathNotFound p)
  globalStatF := fun d => if d = dB then .ok descB else .error .blobUnknown
  getContentF := fun p => if p = "u0" then .ok ("5") else .error (.pathNotFound p)
  putContentF := fun _ _ => .ok ()
  writerF := fun _ _ => .ok 9
  repoResolveF := fun _ => .ok ()
  crossStatF := fun _ d => .ok ⟨"text/plain", 7, d⟩
  uploadDataPathF := fun _ id => .ok (id ++ "-data")
  uploadStartedAtPathF := fun _ id => .ok id
  linkDirRootF := .ok ("links-root")
  parseTimeF := fun s => if s = "5" then some 5 else none
  freshUuid := "u1"
  now := 42

/-- A concrete linked blob statter over the same simple oracles. -/
def statterA : linkedBlobStatter where
  repoName := "repo"
  linkPathF := fun _ d => .ok d.hex
  readlinkF := fun p => if p = "aa" then .ok dB else .error (.pathNotFound p)
  globalStatF := fun d => if d = dB then .ok descB else .error .blobUnknown

/-- The digests for which a link write event was recorded, in order. -/
def linkedDigests (evs : List Ev) : List Digest :=
  evs.filterMap (fun ev =>
    match ev with
    | .writeLink d _ _ => some d
    | _ => none)

/-- Whether the enumeration visitor treats a walked file as a link file:
a non-directory whose base name is `link`. -/
def isLinkFile (f : FileInfo) : Bool :=
  !f.isDir && baseName f.path == "link"

/-- A walked file the enumeration passes without aborting: either it is
not a link file, or its link reads back a digest that is stale
(`blobUnknown`) or resolves and is accepted by the ingestor. -/
def fileOk (lbs : linkedBlobStore) (ingestor : Ingestor) (f : FileInfo) : Prop :=
  isLinkFile f = true →
    ∃ d, lbs.readlinkF f.path = .ok d ∧
      (lbs.accStatF d = .error .blobUnknown ∨
        ∃ desc, lbs.accStatF d = .ok desc ∧ ingestor d = .ok ())

/-- The digests of the link files in a walk that resolve to known blobs,
in walk order. -/
def resolvedDigests (lbs : linkedBlobStore) (files : List FileInfo) : List Digest :=
  files.filterMap (fun f =>
    if isLinkFile f then
      match lbs.readlinkF f.path with
      | .ok d =>
        match lbs.accStatF d with
        | .ok _ => some d
        | .error _ => none
      | .error _ => none
    else none)

/-- A concrete ingestor that accepts every digest. -/
def ingA : Ingestor := fun _ => .ok ()

/-- A concrete ingestor that rejects `dA`. -/
def ingB : Ingestor := fun d => if d = dA then .error (.driver (.fail 3)) else .ok ()

/-- A concrete walk: a directory, a link resolving to the known blob
`dA`, a stale link to the unknown digest `dC`, and a non-link file. -/
def filesA : List FileInfo :=
  [⟨"dir", true⟩, ⟨"la/link", false⟩, ⟨"lc/link", false⟩, ⟨"other", false⟩]

end Distribution

namespace Distribution

/-!
### Theorems about the linked blob store
-/

/-- Invariant of the `linkBlob` worker loop: every link write targets the
canonical digest, the digests written are distinct, and none of them was
in the already-seen set. -/
theorem linkBlobLoop_spec (lbs : linkedBlobStore) (canonical : Descriptor) :
    ∀ (ds seen : List Digest),
      (∀ d p t, Ev.writeLink d p t ∈ (lbs.linkBlobLoop canonical seen ds).2 →
        t = canonical.digest) ∧
      (linkedDigests (lbs.linkBlobLoop canonical seen ds).2).Nodup ∧
      (∀ d ∈ linkedDigests (lbs.linkBlobLoop canonical seen ds).2, d ∉ seen)
  | [], seen => by
    simp [linkedBlobStore.linkBlobLoop, linkedDigests]
  | d0 :: rest, seen => by
    by_cases hd : d0 ∈ seen
    · simpa [linkedBlobStore.linkBlobLoop, hd] using
        linkBlobLoop_spec lbs canonical rest seen
    · cases hlp : lbs.linkPathF lbs.repoName d0 with
      | error e =>
        simp [linkedBlobStore.linkBlobLoop, hd, hlp, linkedDigests]
      | ok p =>
        cases hlf : lbs.linkF p canonical.digest with
        | error e =>
          simp [linkedBlobStore.linkBlobLoop, hd, hlp, hlf, linkedDigests]
        | ok u =>
          obtain ⟨ih1, ih2, ih3⟩ := linkBlobLoop_spec lbs canonical rest (d0 :: seen)
          simp only [linkedDigests] at ih2 ih3
          simp only [linkedBlobStore.linkBlobLoop, hd, hlp, hlf, if_false,
            linkedDigests, List.filterMap_cons]
          refine ⟨?_, ?_, ?_⟩
          · intro d p' t hmem
            rcases List.mem_cons.mp hmem with heq | hmem'
            · injection heq with h1 h2 h3
            · exact ih1 d p' t hmem'
          · refine List.nodup_cons.mpr ⟨fun contra => ?_, ih2⟩
            exact (ih3 d0 contra) (List.mem_cons_self d0 seen)
          · intro d hmem
            rcases List.mem_cons.mp hmem with rfl | hmem'
            · exact hd
            · exact fun hseen => (ih3 d hmem') (List.mem_cons_of_mem d0 hseen)

/-- C10: every link file created by `linkBlob` — for the canonical digest
and for each alias — has the canonical digest as its content, and each
distinct digest in the combined list is linked at most once even if it
appears multiple times. -/
theorem linkBlob_canonical_no_duplicates (lbs : linkedBlobStore)
    (canonical : Descriptor) (aliases : List Digest) :
    (∀ d p t, Ev.writeLink d p t ∈ (lbs.linkBlob canonical aliases).2 →
      t = canonical.digest) ∧
    (linkedDigests (lbs.linkBlob canonical aliases).2).Nodup := by
  obtain ⟨h1, h2, _⟩ :=
    linkBlobLoop_spec lbs canonical (canonical.digest :: aliases) []
  exact ⟨h1, h2⟩

/-- Witness for C10: at a concrete store and duplicate alias list, the
alias link's recorded content is the canonical digest and the written
digests are distinct. -/
theorem linkBlob_canonical_no_duplicates_witness :
    Ev.writeLink dA ("aa") dB ∈ (lbsA.linkBlob descB [dA, dA]).2 ∧
    dB = descB.digest ∧
    (linkedDigests (lbsA.linkBlob descB [dA, dA]).2).Nodup := by
  have h := linkBlob_canonical_no_duplicates lbsA descB [dA, dA]
  exact ⟨by decide, h.1 dA ("aa") dB (by decide), h.2⟩

/-- C9: a successful mount records a descriptor with the generic media
type `application/octet-stream` (never the source repository's media
type), the size taken from the source descriptor and the requested
digest. -/
theorem mount_generic_media_type (lbs : linkedBlobStore) (src : Ref)
    (dgst : Digest) (desc : Descriptor) (evs : List Ev) :
    (∀ st, lbs.mount src dgst (some st) = (.ok desc, evs) →
      desc = ⟨"application/octet-stream", st.size, dgst⟩) ∧
    (lbs.mount src dgst none = (.ok desc, evs) →
      ∃ st, lbs.crossStatF src dgst = .ok st ∧
        desc = ⟨"application/octet-stream", st.size, dgst⟩) := by
  constructor
  · intro st h
    simp only [linkedBlobStore.mount] at h
    cases hr : (lbs.linkBlob ⟨"application/octet-stream", st.size, dgst⟩ []).1 with
    | error e =>
      simp only [hr] at h
      simp at h
    | ok u =>
      cases u
      simp only [hr, Prod.mk.injEq, Except.ok.injEq] at h
      exact h.1.symm
  · intro h
    simp only [linkedBlobStore.mount] at h
    cases hrr : lbs.repoResolveF src with
    | error e =>
      simp only [hrr] at h
      simp at h
    | ok u =>
      cases u
      simp only [hrr] at h
      cases hcs : lbs.crossStatF src dgst with
      | error e =>
        simp only [hcs] at h
        simp at h
      | ok st =>
        simp only [hcs] at h
        refine ⟨st, rfl, ?_⟩
        cases hr : (lbs.linkBlob ⟨"application/octet-stream", st.size, dgst⟩ []).1 with
        | error e =>
          simp only [hr] at h
          simp at h
        | ok u =>
          cases u
          simp only [hr, Prod.mk.injEq, Except.ok.injEq] at h
          exact h.1.symm

/-- Witness for C9: a concrete mount with a precomputed source descriptor
of media type `text/plain` records the octet-stream descriptor. -/
theorem mount_generic_media_type_witness :
    lbsA.mount refS dA (some ⟨"text/plain", 7, dA⟩) =
      (.ok ⟨"application/octet-stream", 7, dA⟩, [.writeLink dA ("aa") dA]) ∧
    (⟨"application/octet-stream", 7, dA⟩ : Descriptor) =
      ⟨"application/octet-stream", (⟨"text/plain", 7, dA⟩ : Descriptor).size, dA⟩ := by
  have hm : lbsA.mount refS dA (some ⟨"text/plain", 7, dA⟩) =
      (.ok ⟨"application/octet-stream", 7, dA⟩, [.writeLink dA ("aa") dA]) := by decide
  exact ⟨hm,
    (mount_generic_media_type lbsA refS dA
      ⟨"application/octet-stream", 7, dA⟩ [.writeLink dA ("aa") dA]).1
      ⟨"text/plain", 7, dA⟩ hm⟩

/-- C7: `Delete` fails with the unsupported condition (touching no
storage) when deletion is disabled; when enabled it first re-stats the
digest, propagates a stat failure without clearing, and clears the link
only after the stat succeeds. -/
theorem Delete_guard_spec (lbs : linkedBlobStore) (dgst : Digest) :
    (lbs.deleteEnabled = false → lbs.Delete dgst = (.error .unsupported, [])) ∧
    (lbs.deleteEnabled = true →
      (∀ e, lbs.accStatF dgst = .error e →
        lbs.Delete dgst = (.error e, [.accStat dgst])) ∧
      (∀ desc, lbs.accStatF dgst = .ok desc →
        lbs.Delete dgst = (lbs.accClearF dgst, [.accStat dgst, .clear dgst]))) := by
  constructor
  · intro h
    simp [linkedBlobStore.Delete, h]
  · intro h
    constructor
    · intro e he
      simp [linkedBlobStore.Delete, h, he]
    · intro desc hdesc
      cases hc : lbs.accClearF dgst with
      | error e => simp [linkedBlobStore.Delete, h, hdesc, hc]
      | ok u =>
        cases u
        simp [linkedBlobStore.Delete, h, hdesc, hc]

/-- Witness for C7: deletion enabled with a present link clears it;
deletion disabled fails unsupported with an empty trace. -/
theorem Delete_guard_spec_witness :
    lbsA.Delete dA = (.ok (), [.accStat dA, .clear dA]) ∧
    ({ lbsA with deleteEnabled := false } : linkedBlobStore).Delete dA =
      (.error .unsupported, []) := by
  refine ⟨?_, ?_⟩
  · have h := ((Delete_guard_spec lbsA dA).2 rfl).2 descB (by decide)
    exact h.trans (by decide)
  · exact (Delete_guard_spec { lbsA with deleteEnabled := false } dA).1 rfl

/-- C4: `linkedBlobStatter.Stat` fails `blobUnknown` when the
repository-scoped link is absent; when the link exists it resolves via
the link's target digest through the global statter, whether or not the
target differs from the requested digest. -/
theorem linkedBlobStatter_Stat_spec (s : linkedBlobStatter) (dgst : Digest)
    (p : String) (hp : s.linkPathF s.repoName dgst = .ok p) :
    (∀ q, s.readlinkF p = .error (.pathNotFound q) →
      s.Stat dgst = .error .blobUnknown) ∧
    (∀ target, s.readlinkF p = .ok target →
      s.Stat dgst = s.globalStatF target) := by
  constructor
  · intro q hq
    simp [linkedBlobStatter.Stat, hp, hq]
  · intro target ht
    simp [linkedBlobStatter.Stat, hp, ht]

/-- Witness for C4: the linked digest `dA` resolves through its alias
target `dB`, and the unlinked digest `dC` fails `blobUnknown`. -/
theorem linkedBlobStatter_Stat_spec_witness :
    statterA.Stat dA = .ok descB ∧ statterA.Stat dC = .error .blobUnknown := by
  have h1 := (linkedBlobStatter_Stat_spec statterA dA ("aa") (by decide)).2 dB (by decide)
  have h2 := (linkedBlobStatter_Stat_spec statterA dC ("cc") (by decide)).1 ("cc") (by decide)
  exact ⟨h1.trans (by decide), h2⟩

/-- C3: `Get`, `Open` and `ServeBlob` each first call `Stat` as an access
check, return the stat error without reading when it fails, and when it
succeeds read the global store keyed by the canonical digest from the
returned descriptor, never by the caller-supplied digest. -/
theorem read_ops_stat_access_check (lbs : linkedBlobStore) (dgst : Digest) :
    (∀ e, lbs.accStatF dgst = .error e →
      lbs.Get dgst = (.error e, [.accStat dgst]) ∧
      lbs.Open dgst = (.error e, [.accStat dgst]) ∧
      lbs.ServeBlob dgst = (.error e, [.accStat dgst])) ∧
    (∀ c, lbs.accStatF dgst = .ok c →
      lbs.Get dgst = (lbs.globalGetF c.digest, [.accStat dgst, .readGlobal c.digest]) ∧
      lbs.Open dgst = (lbs.globalOpenF c.digest, [.accStat dgst, .openGlobal c.digest]) ∧
      lbs.ServeBlob dgst = (lbs.serveF c.digest,
        .accStat dgst ::
          (if c.mediaType ≠ "" then [Ev.setHeader c.mediaType] else []) ++
          [Ev.serveGlobal c.digest])) := by
  constructor
  · intro e h
    refine ⟨?_, ?_, ?_⟩ <;>
      simp [linkedBlobStore.Get, linkedBlobStore.Open, linkedBlobStore.ServeBlob, h]
  · intro c h
    refine ⟨?_, ?_, ?_⟩ <;>
      simp [linkedBlobStore.Get, linkedBlobStore.Open, linkedBlobStore.ServeBlob, h]

/-- Witness for C3: reading the linked digest `dA` goes to the canonical
digest `dB` in the global store; reading the unlinked digest `dC`
returns the stat error with no global read. -/
theorem read_ops_stat_access_check_witness :
    lbsA.Get dA = (.ok [1, 2], [.accStat dA, .readGlobal dB]) ∧
    lbsA.ServeBlob dA =
      (.ok (), [.accStat dA, .setHeader ("text/plain"), .serveGlobal dB]) ∧
    lbsA.Open dC = (.error .blobUnknown, [.accStat dC]) := by
  have h1 := (read_ops_stat_access_check lbsA dA).2 descB (by decide)
  have h2 := (read_ops_stat_access_check lbsA dC).1 .blobUnknown (by decide)
  exact ⟨h1.1.trans (by decide), (h1.2.2).trans (by decide), h2.2.1⟩

/-- Every event emitted by the `linkBlob` worker loop is a link write. -/
theorem linkBlobLoop_events (lbs : linkedBlobStore) (canonical : Descriptor) :
    ∀ (ds seen : List Digest) (ev : Ev),
      ev ∈ (lbs.linkBlobLoop canonical seen ds).2 → ∃ d p t, ev = .writeLink d p t
  | [], _, ev, h => by simp [linkedBlobStore.linkBlobLoop] at h
  | d0 :: rest, seen, ev, h => by
    by_cases hd : d0 ∈ seen
    · simp only [linkedBlobStore.linkBlobLoop, hd, if_true] at h
      exact linkBlobLoop_events lbs canonical rest seen ev h
    · cases hlp : lbs.linkPathF lbs.repoName d0 with
      | error e => simp [linkedBlobStore.linkBlobLoop, hd, hlp] at h
      | ok p =>
        cases hlf : lbs.linkF p canonical.digest with
        | error e => simp [linkedBlobStore.linkBlobLoop, hd, hlp, hlf] at h
        | ok u =>
          cases u
          simp only [linkedBlobStore.linkBlobLoop, hd, if_false, hlp, hlf] at h
          rcases List.mem_cons.mp h with rfl | h'
          · exact ⟨d0, p, canonical.digest, rfl⟩
          · exact linkBlobLoop_events lbs canonical rest (d0 :: seen) ev h'

/-- Every event emitted by `mount` is a link write or the cross-repository
stat. -/
theorem mount_events (lbs : linkedBlobStore) (src : Ref) (dgst : Digest)
    (sstat : Option Descriptor) :
    ∀ ev ∈ (lbs.mount src dgst sstat).2,
      (∃ d p t, ev = .writeLink d p t) ∨ ev = .crossRepoStat src dgst := by
  cases sstat with
  | some st =>
    intro ev h
    simp only [linkedBlobStore.mount, linkedBlobStore.linkBlob] at h
    exact .inl (linkBlobLoop_events lbs _ _ _ ev h)
  | none =>
    intro ev h
    simp only [linkedBlobStore.mount] at h
    cases hrr : lbs.repoResolveF src with
    | error e => simp [hrr] at h
    | ok u =>
      cases u
      simp only [hrr] at h
      cases hcs : lbs.crossStatF src dgst with
      | error e =>
        simp only [hcs, List.mem_singleton] at h
        exact .inr h
      | ok st =>
        simp only [hcs, linkedBlobStore.linkBlob] at h
        rcases List.mem_cons.mp h with rfl | h'
        · exact .inr rfl
        · exact .inl (linkBlobLoop_events lbs _ _ _ ev h')

/-- C5: a `Create` call whose applied options request a mount attempts the
mount first; on mount success it returns the `blobMounted` signal carrying
the mount descriptor and the source reference instead of a session, and
its trace — the mount's own trace — allocates no upload id, writes no
startedAt file and opens no writer. -/
theorem Create_mount_short_circuit (lbs : linkedBlobStore)
    (options : List BlobCreateOption) (opts : CreateOptions) (src : Ref)
    (desc : Descriptor) (evs : List Ev)
    (ho : applyOptions CreateOptions.empty options = .ok opts)
    (hm : opts.shouldMount = true) (hf : opts.mountFrom = some src)
    (hmt : lbs.mount src src.dgst opts.mountStat = (.ok desc, evs)) :
    lbs.Create options = (.error (.blobMounted src desc), evs) ∧
    ∀ ev ∈ evs, (∀ u, ev ≠ .newUuid u) ∧ (∀ p, ev ≠ .putStartedAt p) ∧
      (∀ p b, ev ≠ .openWriter p b) := by
  constructor
  · simp [linkedBlobStore.Create, ho, hm, hf, hmt]
  · intro ev hev
    have hsh := mount_events lbs src src.dgst opts.mountStat ev (by rw [hmt]; exact hev)
    rcases hsh with ⟨d, p, t, rfl⟩ | rfl
    · exact ⟨fun u => by simp, fun p' => by simp, fun p' b => by simp⟩
    · exact ⟨fun u => by simp, fun p' => by simp, fun p' b => by simp⟩

/-- Witness for C5: a concrete `Create` with a mount option whose mount
succeeds returns the mounted signal and the mount's trace. -/
theorem Create_mount_short_circuit_witness :
    lbsA.Create [WithMountFrom refS] =
      (.error (.blobMounted refS ⟨"application/octet-stream", 7, dA⟩),
        [.crossRepoStat refS dA, .writeLink dA ("aa") dA]) := by
  exact (Create_mount_short_circuit lbsA [WithMountFrom refS]
    ⟨true, some refS, none⟩ refS ⟨"application/octet-stream", 7, dA⟩
    [.crossRepoStat refS dA, .writeLink dA ("aa") dA]
    (by decide) rfl rfl (by decide)).1

/-- C6: `Resume` fails with the distinguished `blobUploadUnknown`
condition exactly when reading the startedAt file reports path-not-found;
any other read failure and any parse failure propagate as different
(generic) errors, and a session is returned only when the startedAt file
exists and parses. -/
theorem Resume_upload_unknown_spec (lbs : linkedBlobStore) (id saPath : String)
    (hp : lbs.uploadStartedAtPathF lbs.repoName id = .ok saPath) :
    ((lbs.Resume id).1 = .error .blobUploadUnknown ↔
      ∃ q, lbs.getContentF saPath = .error (.pathNotFound q)) ∧
    (∀ c, lbs.getContentF saPath = .error (.fail c) →
      (lbs.Resume id).1 = .error (.driver (.fail c))) ∧
    (∀ s, lbs.getContentF saPath = .ok s → lbs.parseTimeF s = none →
      (lbs.Resume id).1 = .error (.parse s)) ∧
    (∀ bw, (lbs.Resume id).1 = .ok bw →
      ∃ s t, lbs.getContentF saPath = .ok s ∧ lbs.parseTimeF s = some t) := by
  cases hg : lbs.getContentF saPath with
  | error de =>
    cases de with
    | pathNotFound q =>
      refine ⟨?_, ?_, ?_, ?_⟩
      · constructor
        · intro _
          exact ⟨q, rfl⟩
        · intro _
          simp [linkedBlobStore.Resume, hp, hg]
      · intro c hc
        simp at hc
      · intro s hs
        simp at hs
      · intro bw hbw
        simp [linkedBlobStore.Resume, hp, hg] at hbw
    | fail c0 =>
      refine ⟨?_, ?_, ?_, ?_⟩
      · constructor
        · intro hcon
          simp [linkedBlobStore.Resume, hp, hg] at hcon
        · rintro ⟨q, hq⟩
          simp at hq
      · intro c hc
        simp only [Except.error.injEq, DriverErr.fail.injEq] at hc
        subst hc
        simp [linkedBlobStore.Resume, hp, hg]
      · intro s hs
        simp at hs
      · intro bw hbw
        simp [linkedBlobStore.Resume, hp, hg] at hbw
  | ok s0 =>
    cases hps : lbs.parseTimeF s0 with
    | none =>
      refine ⟨?_, ?_, ?_, ?_⟩
      · constructor
        · intro hcon
          simp [linkedBlobStore.Resume, hp, hg, hps] at hcon
        · rintro ⟨q, hq⟩
          simp at hq
      · intro c hc
        simp at hc
      · intro s hs hpn
        simp only [Except.ok.injEq] at hs
        subst hs
        simp [linkedBlobStore.Resume, hp, hg, hps]
      · intro bw hbw
        simp [linkedBlobStore.Resume, hp, hg, hps] at hbw
    | some t0 =>
      refine ⟨?_, ?_, ?_, ?_⟩
      · constructor
        · intro hcon
          cases hdp : lbs.uploadDataPathF lbs.repoName id with
          | error e =>
            simp [linkedBlobStore.Resume, hp, hg, hps, hdp] at hcon
          | ok dataPath =>
            cases hw : lbs.writerF dataPath true with
            | error e =>
              simp [linkedBlobStore.Resume, linkedBlobStore.newBlobUpload,
                hp, hg, hps, hdp, hw] at hcon
            | ok hnd =>
              simp [linkedBlobStore.Resume, linkedBlobStore.newBlobUpload,
                hp, hg, hps, hdp, hw] at hcon
        · rintro ⟨q, hq⟩
          simp at hq
      · intro c hc
        simp at hc
      · intro s hs hpn
        simp only [Except.ok.injEq] at hs
        subst hs
        rw [hps] at hpn
        cases hpn
      · intro bw _
        exact ⟨s0, t0, rfl, hps⟩

/-- Witness for C6: the missing startedAt file of upload id `u1` yields
`blobUploadUnknown`, while upload id `u0` resumes. -/
theorem Resume_upload_unknown_spec_witness :
    (lbsA.Resume ("u1")).1 = .error .blobUploadUnknown ∧
    (lbsA.Resume ("u0")).1 = .ok ⟨"u0", "u0-data", 5, true, 9⟩ := by
  have hthm := Resume_upload_unknown_spec lbsA ("u1") ("u1") (by decide)
  exact ⟨hthm.1.mpr ⟨"u1", by decide⟩, by decide⟩

/-- The enumeration walk loop over a prefix of passing files continues
into the rest, accumulating the prefix's resolvable digests. -/
theorem enumerateLoop_append_ok (lbs : linkedBlobStore) (ingestor : Ingestor) :
    ∀ (pre rest : List FileInfo), (∀ g ∈ pre, fileOk lbs ingestor g) →
      lbs.enumerateLoop ingestor (pre ++ rest) =
        ((lbs.enumerateLoop ingestor rest).1,
          resolvedDigests lbs pre ++ (lbs.enumerateLoop ingestor rest).2)
  | [], rest, _ => by simp [resolvedDigests]
  | g :: pre, rest, h => by
    have hrest := enumerateLoop_append_ok lbs ingestor pre rest
      (fun x hx => h x (List.mem_cons_of_mem g hx))
    by_cases hdir : g.isDir
    · simp [linkedBlobStore.enumerateLoop, hdir, hrest, resolvedDigests, isLinkFile]
    · by_cases hname : baseName g.path = "link"
      · have hlk : isLinkFile g = true := by
          simp [isLinkFile, hdir, hname]
        obtain ⟨d, hrl, hres⟩ := h g (List.mem_cons_self g pre) hlk
        rcases hres with hstale | ⟨desc, hstat, hing⟩
        · simp [linkedBlobStore.enumerateLoop, hdir, hname, hrl, hstale, hrest,
            resolvedDigests, isLinkFile]
        · simp [linkedBlobStore.enumerateLoop, hdir, hname, hrl, hstat, hing, hrest,
            resolvedDigests, isLinkFile]
      · simp [linkedBlobStore.enumerateLoop, hdir, hname, hrest,
          resolvedDigests, isLinkFile]

/-- C8: with the link root resolvable, an enumeration over a walk whose
link files all either resolve (and are accepted by the ingestor) or are
stale invokes the ingestor on exactly the resolvable digests, in order,
and returns no error; the first readlink error, the first non-blobUnknown
stat error, and the first ingestor error each abort the enumeration
immediately with that error. -/
theorem Enumerate_stale_skip_first_error_stops (lbs : linkedBlobStore)
    (ingestor : Ingestor) (root : String) (hr : lbs.linkDirRootF = .ok root) :
    (∀ files, (∀ f ∈ files, fileOk lbs ingestor f) →
      lbs.Enumerate ingestor files = (.ok (), resolvedDigests lbs files)) ∧
    (∀ pre f post e, (∀ g ∈ pre, fileOk lbs ingestor g) → isLinkFile f = true →
      lbs.readlinkF f.path = .error e →
      lbs.Enumerate ingestor (pre ++ f :: post) =
        (.error (.driver e), resolvedDigests lbs pre)) ∧
    (∀ pre f post d e, (∀ g ∈ pre, fileOk lbs ingestor g) → isLinkFile f = true →
      lbs.readlinkF f.path = .ok d → lbs.accStatF d = .error e →
      e ≠ .blobUnknown →
      lbs.Enumerate ingestor (pre ++ f :: post) =
        (.error e, resolvedDigests lbs pre)) ∧
    (∀ pre f post d desc e, (∀ g ∈ pre, fileOk lbs ingestor g) →
      isLinkFile f = true →
      lbs.readlinkF f.path = .ok d → lbs.accStatF d = .ok desc →
      ingestor d = .error e →
      lbs.Enumerate ingestor (pre ++ f :: post) =
        (.error e, resolvedDigests lbs pre ++ [d])) := by
  have hlkSplit : ∀ f : FileInfo, isLinkFile f = true →
      f.isDir = false ∧ baseName f.path = "link" := by
    intro f hf
    simpa [isLinkFile] using hf
  refine ⟨?_, ?_, ?_, ?_⟩
  · intro files hok
    have := enumerateLoop_append_ok lbs ingestor files [] hok
    simp only [List.append_nil] at this
    simp [linkedBlobStore.Enumerate, hr, this, linkedBlobStore.enumerateLoop]
  · intro pre f post e hok hlk hre
    obtain ⟨hdir, hname⟩ := hlkSplit f hlk
    have hpre := enumerateLoop_append_ok lbs ingestor pre (f :: post) hok
    simp [linkedBlobStore.Enumerate, hr, hpre,
      linkedBlobStore.enumerateLoop, hdir, hname, hre]
  · intro pre f post d e hok hlk hre hstat hne
    obtain ⟨hdir, hname⟩ := hlkSplit f hlk
    have hpre := enumerateLoop_append_ok lbs ingestor pre (f :: post) hok
    simp [linkedBlobStore.Enumerate, hr, hpre,
      linkedBlobStore.enumerateLoop, hdir, hname, hre, hstat, hne]
  · intro pre f post d desc e hok hlk hre hstat hing
    obtain ⟨hdir, hname⟩ := hlkSplit f hlk
    have hpre := enumerateLoop_append_ok lbs ingestor pre (f :: post) hok
    simp [linkedBlobStore.Enumerate, hr, hpre,
      linkedBlobStore.enumerateLoop, hdir, hname, hre, hstat, hing]

/-- Witness for C8: over the concrete walk `filesA` (one resolvable link,
one stale link, one directory, one non-link file), the accepting ingestor
yields exactly the resolvable digest and no error, and the rejecting
ingestor aborts with its error right after that digest. -/
theorem Enumerate_stale_skip_first_error_stops_witness :
    lbsA.Enumerate ingA filesA = (.ok (), [dA]) ∧
    lbsA.Enumerate ingB filesA = (.error (.driver (.fail 3)), [dA]) := by
  have hthmA := Enumerate_stale_skip_first_error_stops lbsA ingA ("links-root") (by decide)
  have hthmB := Enumerate_stale_skip_first_error_stops lbsA ingB ("links-root") (by decide)
  have hokA : ∀ f ∈ filesA, fileOk lbsA ingA f := by
    intro f hf
    simp only [filesA, List.mem_cons, List.not_mem_nil, or_false] at hf
    rcases hf with rfl | rfl | rfl | rfl
    · intro hlk
      exact absurd hlk (by decide)
    · intro _
      exact ⟨dA, by decide, .inr ⟨descB, by decide, rfl⟩⟩
    · intro _
      exact ⟨dC, by decide, .inl (by decide)⟩
    · intro hlk
      exact absurd hlk (by decide)
  have hpreB : ∀ g ∈ [(⟨"dir", true⟩ : FileInfo)], fileOk lbsA ingB g := by
    intro g hg
    simp only [List.mem_singleton] at hg
    subst hg
    intro hlk
    exact absurd hlk (by decide)
  constructor
  · exact (hthmA.1 filesA hokA).trans (by decide)
  · have h := hthmB.2.2.2 [⟨"dir", true⟩] ⟨"la/link", false⟩
      [⟨"lc/link", false⟩, ⟨"other", false⟩] dA descB (.driver (.fail 3))
      hpreB (by decide) (by decide) (by decide) (by decide)
    exact h.trans (by decide)

end Distribution

namespace Purge

/-!
### Theorems about the purge sweep
-/

/-- Membership characterization of the purge decision loop: a root is a
deletion candidate iff it is in the processed list and stale, and a root
is reported as an error iff it is in the processed list and its startedAt
content does not parse. -/
theorem purgeLoop_mem (fs : FS) (olderThan : Nat) :
    ∀ (roots : List Path) (r : Path),
      (r ∈ (purgeLoop fs olderThan roots).1 ↔
        r ∈ roots ∧ staleAt fs olderThan r) ∧
      (r ∈ (purgeLoop fs olderThan roots).2 ↔
        r ∈ roots ∧ malformedAt fs r)
  | [], r => by simp [purgeLoop]
  | r0 :: rest, r => by
    obtain ⟨ih1, ih2⟩ := purgeLoop_mem fs olderThan rest r
    cases hl : lookupFS fs (r0 ++ [startedAtName]) with
    | none =>
      simp only [purgeLoop, hl]
      constructor
      · rw [ih1]
        constructor
        · rintro ⟨hr, hs⟩
          exact ⟨List.mem_cons_of_mem r0 hr, hs⟩
        · rintro ⟨hr, hs⟩
          rcases List.mem_cons.mp hr with rfl | hr'
          · obtain ⟨c, t, hc, -⟩ := hs
            rw [hl] at hc
            cases hc
          · exact ⟨hr', hs⟩
      · rw [ih2]
        constructor
        · rintro ⟨hr, hm⟩
          exact ⟨List.mem_cons_of_mem r0 hr, hm⟩
        · rintro ⟨hr, hm⟩
          rcases List.mem_cons.mp hr with rfl | hr'
          · obtain ⟨c, hc, -⟩ := hm
            rw [hl] at hc
            cases hc
          · exact ⟨hr', hm⟩
    | some c =>
      cases hp : parseStartedAt c with
      | none =>
        simp only [purgeLoop, hl, hp]
        constructor
        · rw [ih1]
          constructor
          · rintro ⟨hr, hs⟩
            exact ⟨List.mem_cons_of_mem r0 hr, hs⟩
          · rintro ⟨hr, hs⟩
            rcases List.mem_cons.mp hr with rfl | hr'
            · obtain ⟨c', t, hc, hpc, -⟩ := hs
              rw [hl] at hc
              cases hc
              rw [hp] at hpc
              cases hpc
            · exact ⟨hr', hs⟩
        · constructor
          · intro hmem
            rcases List.mem_cons.mp hmem with rfl | hmem'
            · exact ⟨List.mem_cons_self r rest, c, hl, hp⟩
            · obtain ⟨hr, hm⟩ := ih2.mp hmem'
              exact ⟨List.mem_cons_of_mem r0 hr, hm⟩
          · rintro ⟨hr, hm⟩
            rcases List.mem_cons.mp hr with rfl | hr'
            · exact List.mem_cons_self r _
            · exact List.mem_cons_of_mem r0 (ih2.mpr ⟨hr', hm⟩)
      | some t =>
        by_cases ht : t < olderThan
        · simp only [purgeLoop, hl, hp, if_pos ht]
          constructor
          · constructor
            · intro hmem
              rcases List.mem_cons.mp hmem with rfl | hmem'
              · exact ⟨List.mem_cons_self r rest, c, t, hl, hp, ht⟩
              · obtain ⟨hr, hs⟩ := ih1.mp hmem'
                exact ⟨List.mem_cons_of_mem r0 hr, hs⟩
            · rintro ⟨hr, hs⟩
              rcases List.mem_cons.mp hr with rfl | hr'
              · exact List.mem_cons_self r _
              · exact List.mem_cons_of_mem r0 (ih1.mpr ⟨hr', hs⟩)
          · rw [ih2]
            constructor
            · rintro ⟨hr, hm⟩
              exact ⟨List.mem_cons_of_mem r0 hr, hm⟩
            · rintro ⟨hr, hm⟩
              rcases List.mem_cons.mp hr with rfl | hr'
              · obtain ⟨c', hc, hpc⟩ := hm
                rw [hl] at hc
                cases hc
                rw [hp] at hpc
                cases hpc
              · exact ⟨hr', hm⟩
        · simp only [purgeLoop, hl, hp, if_neg ht]
          constructor
          · rw [ih1]
            constructor
            · rintro ⟨hr, hs⟩
              exact ⟨List.mem_cons_of_mem r0 hr, hs⟩
            · rintro ⟨hr, hs⟩
              rcases List.mem_cons.mp hr with rfl | hr'
              · obtain ⟨c', t', hc, hpc, ht'⟩ := hs
                rw [hl] at hc
                cases hc
                rw [hp] at hpc
                cases hpc
                exact absurd ht' ht
              · exact ⟨hr', hs⟩
          · rw [ih2]
            constructor
            · rintro ⟨hr, hm⟩
              exact ⟨List.mem_cons_of_mem r0 hr, hm⟩
            · rintro ⟨hr, hm⟩
              rcases List.mem_cons.mp hr with rfl | hr'
              · obtain ⟨c', hc, hpc⟩ := hm
                rw [hl] at hc
                cases hc
                rw [hp] at hpc
                cases hpc
              · exact ⟨hr', hm⟩

/-- C1: in a purge sweep with cutoff `olderThan`, the deleted set is
exactly the discovered sessions whose startedAt file records a start time
earlier than the cutoff; a session whose startedAt file is missing is
never deleted and contributes no error. -/
theorem PurgeUploads_deleted_exactly_stale (fs : FS) (olderThan : Nat) :
    (∀ r, r ∈ (PurgeUploads fs olderThan true).1 ↔
      r ∈ gatherSessionRoots fs ∧ staleAt fs olderThan r) ∧
    (∀ r, r ∈ gatherSessionRoots fs →
      lookupFS fs (r ++ [startedAtName]) = none →
      r ∉ (PurgeUploads fs olderThan true).1 ∧
      r ∉ (PurgeUploads fs olderThan true).2.1) := by
  have hfst : (PurgeUploads fs olderThan true).1 =
      (purgeLoop fs olderThan (gatherSessionRoots fs)).1 := rfl
  have hsnd : (PurgeUploads fs olderThan true).2.1 =
      (purgeLoop fs olderThan (gatherSessionRoots fs)).2 := rfl
  constructor
  · intro r
    rw [hfst]
    exact (purgeLoop_mem fs olderThan (gatherSessionRoots fs) r).1
  · intro r hr hnone
    constructor
    · rw [hfst]
      intro hmem
      obtain ⟨-, c, t, hc, -⟩ :=
        (purgeLoop_mem fs olderThan (gatherSessionRoots fs) r).1.mp hmem
      rw [hnone] at hc
      cases hc
    · rw [hsnd]
      intro hmem
      obtain ⟨-, c, hc, -⟩ :=
        (purgeLoop_mem fs olderThan (gatherSessionRoots fs) r).2.mp hmem
      rw [hnone] at hc
      cases hc

/-- Every session root discovered from a path contains the `_uploads`
segment. -/
theorem sessionRootOf_uploads_mem :
    ∀ (p r : Path), sessionRootOf p = some r → uploadsSegment ∈ r
  | [], r, h => by simp [sessionRootOf] at h
  | s :: rest, r, h => by
    by_cases hs : s = uploadsSegment
    · cases rest with
      | nil => simp [sessionRootOf, hs] at h
      | cons id t =>
        simp only [sessionRootOf, hs, if_true, Option.some.injEq] at h
        subst h
        exact List.mem_cons_self uploadsSegment [id]
    · simp only [sessionRootOf, if_neg hs] at h
      cases hrec : sessionRootOf rest with
      | none =>
        rw [hrec] at h
        cases h
      | some r' =>
        rw [hrec] at h
        simp only [Option.some.injEq] at h
        subst h
        exact List.mem_cons_of_mem s (sessionRootOf_uploads_mem rest r' hrec)

/-- Every gathered session root contains the `_uploads` segment. -/
theorem gatherSessionRoots_uploads_mem (fs : FS) :
    ∀ r ∈ gatherSessionRoots fs, uploadsSegment ∈ r := by
  intro r hr
  simp only [gatherSessionRoots, List.mem_dedup, List.mem_filterMap] at hr
  obtain ⟨f, -, hf⟩ := hr
  exact sessionRootOf_uploads_mem f.1 r hf

/-- A Boolean list prefix contains only elements of the longer list. -/
theorem mem_of_isPrefixOf :
    ∀ (r q : Path), r.isPrefixOf q = true → ∀ x ∈ r, x ∈ q
  | [], _, _, x, hx => absurd hx (List.not_mem_nil x)
  | _ :: _, [], h, _, _ => by simp [List.isPrefixOf] at h
  | a :: as, b :: bs, h, x, hx => by
    simp only [List.isPrefixOf, Bool.and_eq_true, beq_iff_eq] at h
    obtain ⟨rfl, h2⟩ := h
    rcases List.mem_cons.mp hx with rfl | hx'
    · exact List.mem_cons_self x bs
    · exact List.mem_cons_of_mem a (mem_of_isPrefixOf as bs h2 x hx')

/-- C2: every path a purge sweep deletes contains the `_uploads` segment,
and every stored artifact whose path lacks that segment survives the
sweep unchanged. -/
theorem PurgeUploads_only_uploads_frame (fs : FS) (olderThan : Nat) (b : Bool) :
    (∀ p ∈ (PurgeUploads fs olderThan b).1, uploadsSegment ∈ p) ∧
    (∀ f ∈ fs, uploadsSegment ∉ f.1 →
      f ∈ (PurgeUploads fs olderThan b).2.2) := by
  have hfst : (PurgeUploads fs olderThan b).1 =
      (purgeLoop fs olderThan (gatherSessionRoots fs)).1 := rfl
  have hdel : ∀ p ∈ (PurgeUploads fs olderThan b).1, uploadsSegment ∈ p := by
    intro p hp
    rw [hfst] at hp
    have hroot :=
      ((purgeLoop_mem fs olderThan (gatherSessionRoots fs) p).1.mp hp).1
    exact gatherSessionRoots_uploads_mem fs p hroot
  refine ⟨hdel, ?_⟩
  intro f hf hnup
  cases b with
  | false => simpa [PurgeUploads] using hf
  | true =>
    have hpred : ((purgeLoop fs olderThan (gatherSessionRoots fs)).1.all
        (fun r => ! r.isPrefixOf f.1)) = true := by
      rw [List.all_eq_true]
      intro r hrdel
      have hup : uploadsSegment ∈ r := hdel r (by rw [hfst]; exact hrdel)
      cases hpre : r.isPrefixOf f.1 with
      | false => rfl
      | true => exact absurd (mem_of_isPrefixOf r f.1 hpre uploadsSegment hup) hnup
    have h22 : (PurgeUploads fs olderThan true).2.2 =
        fs.filter (fun g =>
          (purgeLoop fs olderThan (gatherSessionRoots fs)).1.all
            (fun r => ! r.isPrefixOf g.1)) := rfl
    rw [h22]
    exact List.mem_filter.mpr ⟨hf, hpred⟩

/-- Witness for C1: in the concrete store, the stale session `u1` is
deleted, and the session `u3` with no startedAt file is neither deleted
nor reported as an error. -/
theorem PurgeUploads_deleted_exactly_stale_witness :
    (["repo", "_uploads", "u1"] : Path) ∈ (PurgeUploads fsA 5 true).1 ∧
    (["repo", "_uploads", "u3"] : Path) ∉ (PurgeUploads fsA 5 true).1 ∧
    (["repo", "_uploads", "u3"] : Path) ∉ (PurgeUploads fsA 5 true).2.1 := by
  have h := PurgeUploads_deleted_exactly_stale fsA 5
  have h3 := h.2 ["repo", "_uploads", "u3"] (by decide) (by decide)
  refine ⟨(h.1 ["repo", "_uploads", "u1"]).mpr ⟨by decide, ?_⟩, h3.1, h3.2⟩
  exact ⟨Content.time 3, 3, by decide, rfl, by decide⟩

/-- Witness for C2: the deleted path of the concrete sweep contains the
`_uploads` segment, and the artifact under the similarly named
`_important` directory survives the sweep. -/
theorem PurgeUploads_only_uploads_frame_witness :
    uploadsSegment ∈ (["repo", "_uploads", "u1"] : Path) ∧
    (["repo", "_important", "file"], Content.bytes ("keep")) ∈
      (PurgeUploads fsA 5 true).2.2 := by
  have h := PurgeUploads_only_uploads_frame fsA 5 true
  exact ⟨h.1 ["repo", "_uploads", "u1"] (by decide),
    h.2 (["repo", "_important", "file"], Content.bytes ("keep"))
      (by decide) (by decide)⟩

end Purge
